import Mathlib

/-!
Shallow embedding of the render-cache-and-tiling core of the
roblox-katex-renderer repository, together with proofs of the claims of
its specification.

A JavaScript `Map` preserves insertion order, so every cache variant in
the repository is modelled as an association list `List (K × V)` whose
head is the oldest (least recently inserted) entry.  `Map.delete`
removes the unique entry with the given key, `Map.set` on an absent key
appends at the most-recent end, and `Map.set` on a present key updates
the value in place without changing the order — all mirrored below.

Pixel buffers are modelled as `List Nat` (one element per byte); tiles
are byte lists extracted from the buffer exactly as the corresponding
row-copy or slice code does.  Fallible JavaScript code (functions that
may `throw`) is modelled with `Except`; an `async` function that rejects
is an `Except.error`.
-/

section JsMapModel

variable {K : Type} {V : Type} [DecidableEq K]

/-- `map.get(k)` / `map.has(k)`: the first (and, for key-unique maps, only)
entry whose key is `k`. -/
def jsFind? (m : List (K × V)) (k : K) : Option (K × V) :=
  m.find? (fun p => p.1 = k)

/-- `map.has(k)`. -/
def jsHas (m : List (K × V)) (k : K) : Bool :=
  (jsFind? m k).isSome

/-- `map.delete(k)`: removes the entry with key `k` when present. -/
def jsDelete (m : List (K × V)) (k : K) : List (K × V) :=
  m.eraseP (fun p => p.1 = k)

/-- `map.set(k, v)`: updates in place when `k` is present, otherwise
appends at the most-recently-inserted end. -/
def jsMapSet (m : List (K × V)) (k : K) (v : V) : List (K × V) :=
  if jsHas m k then m.map (fun p => if p.1 = k then (k, v) else p)
  else m ++ [(k, v)]

/-- `map.delete(map.keys().next().value)`: removing the oldest entry.
On an empty map `keys().next().value` is `undefined` and the delete is a
no-op. -/
def jsDeleteFirst (m : List (K × V)) : List (K × V) :=
  match m with
  | [] => []
  | p :: _ => jsDelete m p.1

/-- The value found for an existing key. -/
def jsEntry? (m : List (K × V)) (k : K) : Option V :=
  (jsFind? m k).map (·.2)

/-- Keys of the map are pairwise distinct (an invariant of every real
`Map`, maintained by all the operations above). -/
def KeysNodup (m : List (K × V)) : Prop :=
  (m.map Prod.fst).Nodup

instance (m : List (K × V)) : Decidable (KeysNodup m) :=
  inferInstanceAs (Decidable (m.map Prod.fst).Nodup)

@[simp] theorem jsFind?_nil (k : K) : jsFind? ([] : List (K × V)) k = none := rfl

@[simp] theorem jsDeleteFirst_cons (p : K × V) (tl : List (K × V)) :
    jsDeleteFirst (p :: tl) = tl := by
  simp [jsDeleteFirst, jsDelete, List.eraseP_cons_of_pos]

theorem jsFind?_eq_none_of_not_mem {m : List (K × V)} {k : K}
    (h : k ∉ m.map Prod.fst) : jsFind? m k = none := by
  rw [jsFind?, List.find?_eq_none]
  intro p hp
  simp only [decide_eq_true_eq]
  intro hk
  exact h (List.mem_map.mpr ⟨p, hp, hk⟩)

theorem jsHas_eq_false_of_not_mem {m : List (K × V)} {k : K}
    (h : k ∉ m.map Prod.fst) : jsHas m k = false := by
  simp [jsHas, jsFind?_eq_none_of_not_mem h]

theorem jsMapSet_of_not_mem {m : List (K × V)} {k : K} (v : V)
    (h : k ∉ m.map Prod.fst) : jsMapSet m k v = m ++ [(k, v)] := by
  simp [jsMapSet, jsHas_eq_false_of_not_mem h]

/-- `while (map.size > capacity) map.delete(map.keys().next().value)`:
the eviction loop shared by the part_000 and part_002 caches.  Deleting
the first key of a nonempty map leaves exactly its tail
(`jsDeleteFirst_cons`), so the loop body recurses on the tail. -/
def evictWhile (capacity : Nat) : List (K × V) → List (K × V)
  | [] => []
  | p :: tl => if capacity < (p :: tl).length then evictWhile capacity tl else p :: tl

omit [DecidableEq K] in
theorem evictWhile_eq_drop (capacity : Nat) (m : List (K × V)) :
    evictWhile capacity m = m.drop (m.length - capacity) := by
  induction m with
  | nil => simp [evictWhile]
  | cons p tl ih =>
    simp only [evictWhile, List.length_cons]
    by_cases h : capacity < tl.length + 1
    · rw [if_pos h, ih]
      have hlen : tl.length + 1 - capacity = (tl.length - capacity) + 1 := by omega
      rw [hlen, List.drop_succ_cons]
    · rw [if_neg h]
      have hlen : tl.length + 1 - capacity = 0 := by omega
      rw [hlen, List.drop_zero]

end JsMapModel

/-!
## part_000: `LruCache` with TTL (src/unnamed/part_000, lines 23-54)

```js
class LruCache {
  constructor(capacity) { this.capacity = capacity; this.map = new Map(); }
  _touch(key, entry) { this.map.delete(key); this.map.set(key, entry); }
  get(key) {
    const entry = this.map.get(key);
    if (!entry) return null;
    const now = Date.now() / 1000;
    if (entry.ts + entry.ttl < now) { this.map.delete(key); return null; }
    this._touch(key, entry);
    return entry.value;
  }
  set(key, value, ttl = CACHE_TTL) {
    if (this.map.has(key)) this.map.delete(key);
    this.map.set(key, { value, ts: Date.now() / 1000, ttl });
    while (this.map.size > this.capacity) {
      const firstKey = this.map.keys().next().value;
      this.map.delete(firstKey);
    }
  }
  delete(key) { this.map.delete(key); }
}
```

Time (`Date.now() / 1000`) is passed in explicitly as a `Nat` parameter
`now`; entries are never falsy, so `if (!entry)` is the `none` check.
-/

namespace Part000

structure Entry (V : Type) where
  value : V
  ts : Nat
  ttl : Nat
  deriving DecidableEq, Repr

abbrev Map (K V : Type) := List (K × Entry V)

variable {K V : Type} [DecidableEq K]

/-- `_touch(key, entry)`. -/
def touch (m : Map K V) (k : K) (e : Entry V) : Map K V :=
  jsMapSet (jsDelete m k) k e

/-- `get(key)` at time `now`, returning the looked-up value and the
updated map. -/
def get (now : Nat) (m : Map K V) (k : K) : Option V × Map K V :=
  match jsFind? m k with
  | none => (none, m)
  | some (_, e) =>
    if e.ts + e.ttl < now then (none, jsDelete m k)
    else (some e.value, touch m k e)

/-- `set(key, value, ttl)` at time `now` on a cache of the given
capacity. -/
def set (capacity now : Nat) (m : Map K V) (k : K) (v : V) (ttl : Nat) : Map K V :=
  let m1 := if jsHas m k then jsDelete m k else m
  evictWhile capacity (jsMapSet m1 k ⟨v, now, ttl⟩)

/-- `delete(key)`. -/
def delete (m : Map K V) (k : K) : Map K V :=
  jsDelete m k

/-- A sequence of `set` calls (all at time `now`, all with value `v` and
the default TTL), oldest first. -/
def setAll (capacity now ttl : Nat) (ks : List K) (v : V) : Map K V :=
  ks.foldl (fun m k => set capacity now m k v ttl) []

/-- A sequence of `get` calls, each given as `(now, key)`. -/
def getAll (ops : List (Nat × K)) (m : Map K V) : Map K V :=
  ops.foldl (fun m op => (get op.1 m op.2).2) m

end Part000

/-!
## server.js: `LruCache` without TTL (src/server.js, lines 204-235)

```js
class LruCache {
    constructor(Capacity = DefaultCacheCapacity) {
        this.Capacity = Capacity; this.Cache = new Map();
    }
    Get(Key) {
        if (!this.Cache.has(Key)) return null;
        const Value = this.Cache.get(Key);
        this.Cache.delete(Key);
        this.Cache.set(Key, Value);
        return Value;
    }
    Set(Key, Value) {
        if (this.Cache.has(Key)) {
            this.Cache.delete(Key);
        } else if (this.Cache.size >= this.Capacity) {
            this.Cache.delete(this.Cache.keys().next().value);
        }
        this.Cache.set(Key, Value);
    }
}
```
-/

namespace ServerJs

variable {K V : Type} [DecidableEq K]

/-- `LruCache.Get`. -/
def Get (m : List (K × V)) (k : K) : Option V × List (K × V) :=
  match jsFind? m k with
  | none => (none, m)
  | some (_, v) => (some v, jsMapSet (jsDelete m k) k v)

/-- `LruCache.Set` on a cache of the given capacity. -/
def Set (capacity : Nat) (m : List (K × V)) (k : K) (v : V) : List (K × V) :=
  let m1 :=
    if jsHas m k then jsDelete m k
    else if capacity ≤ m.length then jsDeleteFirst m
    else m
  jsMapSet m1 k v

/-- A sequence of `Set` calls with a fixed value, oldest key first. -/
def SetAll (capacity : Nat) (ks : List K) (v : V) : List (K × V) :=
  ks.foldl (fun m k => Set capacity m k v) []

end ServerJs

section CacheLemmas

variable {K V : Type} [DecidableEq K]

theorem jsDeleteFirst_eq_tail (m : List (K × V)) : jsDeleteFirst m = m.tail := by
  cases m with
  | nil => rfl
  | cons p tl => simp

omit [DecidableEq K] in
theorem fst_mem_of_mem_drop {m : List (K × V)} {n : Nat} {p : K × V}
    (h : p ∈ m.drop n) : p.1 ∈ m.map Prod.fst :=
  List.mem_map.mpr ⟨p, List.drop_subset n m h, rfl⟩

omit [DecidableEq K] in
theorem not_mem_drop_map_fst {ks : List K} {k : K} (hk : k ∉ ks) (f : K → V) (n : Nat) :
    k ∉ ((ks.map (fun x => (x, f x))).drop n).map Prod.fst := by
  intro hmem
  rcases List.mem_map.mp hmem with ⟨p, hp, hfst⟩
  have hp' := List.drop_subset n _ hp
  rcases List.mem_map.mp hp' with ⟨x, hx, hpx⟩
  apply hk
  rw [← hfst, ← hpx]
  exact hx

/-- server.js `LruCache.Set` on a fresh key appends the key at the
most-recent end, evicting the oldest entry when at or over capacity. -/
theorem ServerJs.Set_fresh (capacity : Nat) (m : List (K × V)) (k : K) (v : V)
    (hk : k ∉ m.map Prod.fst) :
    ServerJs.Set capacity m k v =
      (if capacity ≤ m.length then m.tail else m) ++ [(k, v)] := by
  have h1 : jsHas m k = false := jsHas_eq_false_of_not_mem hk
  unfold ServerJs.Set
  simp only [h1, Bool.false_eq_true, if_false, jsDeleteFirst_eq_tail]
  by_cases h2 : capacity ≤ m.length
  · have htail : k ∉ m.tail.map Prod.fst := by
      intro hmem
      exact hk (by
        rcases List.mem_map.mp hmem with ⟨p, hp, hfst⟩
        exact List.mem_map.mpr ⟨p, List.tail_subset m hp, hfst⟩)
    simp [h2, jsMapSet_of_not_mem _ htail]
  · simp [h2, jsMapSet_of_not_mem _ hk]

/-- After a sequence of `Set` calls with pairwise-distinct keys on an
initially empty server.js cache of capacity ≥ 1, the resident entries
are exactly the most recent `capacity` keys in insertion order. -/
theorem ServerJs.SetAll_eq_drop (capacity : Nat) (hcap : 1 ≤ capacity)
    (ks : List K) (v : V) (hnd : ks.Nodup) :
    ServerJs.SetAll capacity ks v =
      (ks.map (fun k => (k, v))).drop (ks.length - capacity) := by
  induction ks using List.reverseRecOn with
  | nil => simp [SetAll]
  | append_singleton ks k ih =>
    have hks : ks.Nodup := hnd.of_append_left
    have hkfresh : k ∉ ks := fun hmem =>
      (List.disjoint_of_nodup_append hnd) hmem (List.mem_singleton.mpr rfl)
    have hfold : ServerJs.SetAll capacity (ks ++ [k]) v =
        ServerJs.Set capacity (ServerJs.SetAll capacity ks v) k v := by
      simp [SetAll, List.foldl_append]
    have hfresh' : k ∉ ((ks.map (fun x => (x, v))).drop (ks.length - capacity)).map Prod.fst :=
      not_mem_drop_map_fst hkfresh _ _
    rw [hfold, ih hks, ServerJs.Set_fresh capacity _ k v hfresh']
    simp only [List.map_append, List.map_cons, List.map_nil, List.length_append,
      List.length_map, List.length_cons, List.length_nil, List.length_drop]
    by_cases hc : capacity ≤ ks.length
    · rw [if_pos (by omega), List.tail_drop,
        List.drop_append_of_le_length (by simp; omega)]
      have hidx : ks.length - capacity + 1 = ks.length + 1 - capacity := by omega
      rw [hidx]
    · rw [if_neg (by omega)]
      have h1 : ks.length - capacity = 0 := by omega
      have h2 : ks.length + 1 - capacity = 0 := by omega
      rw [h1, h2, List.drop_zero, List.drop_zero]

/-- server.js `LruCache.Set` with capacity 0 behaves like a capacity-1
cache: `Cache.size >= 0` always holds, so the oldest entry is deleted
and the new entry is then inserted and retained. -/
theorem ServerJs.SetAll_zero_eq_drop (ks : List K) (v : V) (hnd : ks.Nodup) :
    ServerJs.SetAll 0 ks v =
      (ks.map (fun k => (k, v))).drop (ks.length - 1) := by
  induction ks using List.reverseRecOn with
  | nil => simp [SetAll]
  | append_singleton ks k ih =>
    have hks : ks.Nodup := hnd.of_append_left
    have hkfresh : k ∉ ks := fun hmem =>
      (List.disjoint_of_nodup_append hnd) hmem (List.mem_singleton.mpr rfl)
    have hfold : ServerJs.SetAll 0 (ks ++ [k]) v =
        ServerJs.Set 0 (ServerJs.SetAll 0 ks v) k v := by
      simp [SetAll, List.foldl_append]
    have hfresh' : k ∉ ((ks.map (fun x => (x, v))).drop (ks.length - 1)).map Prod.fst :=
      not_mem_drop_map_fst hkfresh _ _
    rw [hfold, ih hks, ServerJs.Set_fresh 0 _ k v hfresh',
      if_pos (Nat.zero_le _), List.tail_drop]
    rcases ks with _ | ⟨k0, ks0⟩
    · simp [SetAll]
    · have hsplit : (((k0 :: ks0).map (fun x => (x, v))).drop ((k0 :: ks0).length - 1 + 1))
          ++ [(k, v)]
          = ((((k0 :: ks0).map (fun x => (x, v))) ++ [(k, v)]).drop
              ((k0 :: ks0).length - 1 + 1)) :=
        (List.drop_append_of_le_length
          (by simp only [List.length_map, List.length_cons]; omega)).symm
      rw [hsplit]
      simp only [List.map_append, List.map_cons, List.map_nil, List.length_append,
        List.length_map, List.length_cons, List.length_nil]
      congr 1

/-- part_000 `LruCache.set` on a fresh key appends the entry and then
evicts from the oldest end until the size is within capacity. -/
theorem Part000.set_fresh (capacity now ttl : Nat) (m : Part000.Map K V) (k : K) (v : V)
    (hk : k ∉ m.map Prod.fst) :
    Part000.set capacity now m k v ttl =
      (m ++ [(k, Part000.Entry.mk v now ttl)]).drop ((m.length + 1) - capacity) := by
  unfold Part000.set
  simp only [jsHas_eq_false_of_not_mem hk, Bool.false_eq_true, if_false,
    jsMapSet_of_not_mem _ hk, evictWhile_eq_drop]
  simp

/-- After a sequence of `set` calls with pairwise-distinct keys on an
initially empty part_000 cache, the resident entries are exactly the
most recent `capacity` keys in insertion order (for any capacity,
including 0). -/
theorem Part000.setAll_eq_drop (capacity now ttl : Nat) (ks : List K) (v : V)
    (hnd : ks.Nodup) :
    Part000.setAll capacity now ttl ks v =
      (ks.map (fun k => (k, Part000.Entry.mk v now ttl))).drop (ks.length - capacity) := by
  induction ks using List.reverseRecOn with
  | nil => simp [setAll]
  | append_singleton ks k ih =>
    have hks : ks.Nodup := hnd.of_append_left
    have hkfresh : k ∉ ks := fun hmem =>
      (List.disjoint_of_nodup_append hnd) hmem (List.mem_singleton.mpr rfl)
    have hfold : Part000.setAll capacity now ttl (ks ++ [k]) v =
        Part000.set capacity now (Part000.setAll capacity now ttl ks v) k v ttl := by
      simp [setAll, List.foldl_append]
    have hfresh' : k ∉ ((ks.map (fun x => (x, Part000.Entry.mk v now ttl))).drop
        (ks.length - capacity)).map Prod.fst :=
      not_mem_drop_map_fst hkfresh _ _
    rw [hfold, ih hks, Part000.set_fresh capacity now ttl _ k v hfresh']
    have hsplit : ((ks.map (fun x => (x, Part000.Entry.mk v now ttl))).drop
          (ks.length - capacity)) ++ [(k, Part000.Entry.mk v now ttl)]
        = (((ks.map (fun x => (x, Part000.Entry.mk v now ttl)))
            ++ [(k, Part000.Entry.mk v now ttl)]).drop (ks.length - capacity)) :=
      (List.drop_append_of_le_length (by simp)).symm
    rw [hsplit, List.drop_drop]
    simp only [List.map_append, List.map_cons, List.map_nil, List.length_append,
      List.length_map, List.length_cons, List.length_nil, List.length_drop]
    congr 1
    omega

omit [DecidableEq K] in
/-- Projecting the keys of a constant-valued key list after an
eviction drop. -/
theorem map_fst_drop_map_const (ks : List K) (e : V) (n : Nat) :
    (((ks.map (fun k => (k, e))).drop n).map Prod.fst) = ks.drop n := by
  induction ks generalizing n with
  | nil => simp
  | cons k tl ih =>
    cases n with
    | zero =>
      simp only [List.drop_zero, List.map_map]
      have hcomp : (Prod.fst ∘ fun k : K => (k, e)) = id := rfl
      rw [hcomp, List.map_id]
    | succ n => simpa using ih n

end CacheLemmas

section CacheOpLemmas

variable {K V : Type} [DecidableEq K]

theorem jsFind?_cons_self (k : K) (v : V) (tl : List (K × V)) :
    jsFind? ((k, v) :: tl) k = some (k, v) := by
  simp [jsFind?, List.find?_cons_of_pos]

theorem jsDelete_cons_self (k : K) (v : V) (tl : List (K × V)) :
    jsDelete ((k, v) :: tl) k = tl := by
  simp [jsDelete, List.eraseP_cons_of_pos]

omit [DecidableEq K] in
theorem map_fst_map_const (ks : List K) (e : V) :
    (ks.map (fun k => (k, e))).map Prod.fst = ks := by
  simpa using map_fst_drop_map_const ks e 0

omit [DecidableEq K] in
theorem map_fst_comp_const (ks : List K) (e : V) :
    ks.map (Prod.fst ∘ fun k => (k, e)) = ks := by
  have hcomp : (Prod.fst ∘ fun k : K => (k, e)) = id := rfl
  rw [hcomp, List.map_id]

/-- server.js `LruCache.Get` on a present key: the entry is deleted and
re-inserted at the most-recently-used end, and its value is returned. -/
theorem ServerJs.Get_found {m : List (K × V)} {k : K} {v : V}
    (h : jsFind? m k = some (k, v)) :
    ServerJs.Get m k = (some v, jsMapSet (jsDelete m k) k v) := by
  simp [ServerJs.Get, h]

/-- part_000 `LruCache.get` on a present, unexpired key: the entry is
touched (delete + re-insert, entry object unchanged) and its value is
returned. -/
theorem Part000.get_found_fresh {now : Nat} {m : Part000.Map K V} {k : K}
    {e : Part000.Entry V} (h : jsFind? m k = some (k, e))
    (hfresh : ¬ e.ts + e.ttl < now) :
    Part000.get now m k = (some e.value, Part000.touch m k e) := by
  simp [Part000.get, h, hfresh]

end CacheOpLemmas

/-- C2: for pairwise-distinct keys, the resident-entry count after each
`set` is `min capacity k` — for the part_000 cache at every capacity
(including 0, where nothing is ever retained), and for the server.js
cache at every capacity ≥ 1.  At capacity 0 the server.js `Set` instead
always retains exactly the newest entry (count `min 1 k`), which is what
forces the correction of the claim. -/
theorem claim_c2_capacity_invariant {K V : Type} [DecidableEq K]
    (capacity now ttl : Nat) (ks : List K) (v : V) (hnd : ks.Nodup)
    (n : Nat) (hn : n ≤ ks.length) :
    (Part000.setAll capacity now ttl (ks.take n) v).length = min capacity n
    ∧ (1 ≤ capacity → (ServerJs.SetAll capacity (ks.take n) v).length = min capacity n)
    ∧ (ServerJs.SetAll 0 (ks.take n) v).length = min 1 n := by
  have hndn : (ks.take n).Nodup := hnd.sublist (List.take_sublist n ks)
  have hlen : (ks.take n).length = n := by
    rw [List.length_take]
    omega
  refine ⟨?_, fun hcap => ?_, ?_⟩
  · rw [Part000.setAll_eq_drop capacity now ttl _ v hndn]
    simp only [List.length_drop, List.length_map, hlen]
    omega
  · rw [ServerJs.SetAll_eq_drop capacity hcap _ v hndn]
    simp only [List.length_drop, List.length_map, hlen]
    omega
  · rw [ServerJs.SetAll_zero_eq_drop _ v hndn]
    simp only [List.length_drop, List.length_map, hlen]
    omega

/-- C2 counterexample: with capacity 0, a single server.js `Set` of a
fresh key leaves one entry resident, not zero — the claim's
"with capacity 0 no set call ever leaves any entry resident" is false
for `LruCache.Set` in src/server.js. -/
theorem claim_c2_counterexample :
    (ServerJs.SetAll 0 [0] (0 : Nat)).length = 1
    ∧ (ServerJs.SetAll 0 [0] (0 : Nat)).length ≠ min 0 1 := by
  constructor
  · rfl
  · decide

/-- C2 witness: the invariant evaluated at capacity 2 over three
distinct keys. -/
theorem claim_c2_witness :
    ([0, 1, 2] : List Nat).Nodup ∧ 3 ≤ ([0, 1, 2] : List Nat).length ∧
    ((Part000.setAll 2 5 60 (([0, 1, 2] : List Nat).take 3) (7 : Nat)).length = min 2 3
     ∧ (1 ≤ 2 → (ServerJs.SetAll 2 (([0, 1, 2] : List Nat).take 3) (7 : Nat)).length = min 2 3)
     ∧ (ServerJs.SetAll 0 (([0, 1, 2] : List Nat).take 3) (7 : Nat)).length = min 1 3) :=
  ⟨by decide, by decide,
    claim_c2_capacity_invariant 2 5 60 [0, 1, 2] 7 (by decide) 3 (by decide)⟩

/-- C5: with capacity `C = mid.length + 2` and `C + 1` pairwise-distinct
keys `k1, k2, mid…, klast`, inserting all of them in order leaves
exactly `k2 :: mid ++ [klast]` resident (only `k1` is evicted); if
instead `k1` is `get` after the first `C` inserts and before inserting
`klast`, the final insert evicts `k2` and the residents are
`mid ++ [k1, klast]`.  Proved for both the server.js cache and the
part_000 cache (the latter with an unexpired `get`, `t1 ≤ now + ttl`). -/
theorem claim_c5_lru_eviction_order {K V : Type} [DecidableEq K]
    (k1 k2 klast : K) (mid : List K) (v : V) (now t1 ttl : Nat)
    (hnd : (k1 :: k2 :: mid ++ [klast]).Nodup) (ht : t1 ≤ now + ttl) :
    (ServerJs.SetAll (mid.length + 2) (k1 :: k2 :: mid ++ [klast]) v).map Prod.fst
        = k2 :: mid ++ [klast]
    ∧ ((ServerJs.Set (mid.length + 2)
          (ServerJs.Get (ServerJs.SetAll (mid.length + 2) (k1 :: k2 :: mid) v) k1).2
          klast v).map Prod.fst) = mid ++ [k1, klast]
    ∧ (Part000.setAll (mid.length + 2) now ttl (k1 :: k2 :: mid ++ [klast]) v).map Prod.fst
        = k2 :: mid ++ [klast]
    ∧ ((Part000.set (mid.length + 2) now
          (Part000.get t1 (Part000.setAll (mid.length + 2) now ttl (k1 :: k2 :: mid) v) k1).2
          klast v ttl).map Prod.fst) = mid ++ [k1, klast] := by
  obtain ⟨h1, hnd1⟩ := List.nodup_cons.mp hnd
  obtain ⟨h2, hnd2⟩ := List.nodup_cons.mp hnd1
  simp at h1 h2
  obtain ⟨hk12, hk1mid, hk1last⟩ := h1
  obtain ⟨hk2mid, hk2last⟩ := h2
  have hmidnd : mid.Nodup := hnd2.of_append_left
  have hlastmid : klast ∉ mid := fun hm =>
    (List.disjoint_of_nodup_append hnd2) hm (List.mem_singleton.mpr rfl)
  have hnd0 : (k1 :: k2 :: mid).Nodup := by
    refine List.nodup_cons.mpr ⟨?_, List.nodup_cons.mpr ⟨hk2mid, hmidnd⟩⟩
    simp only [List.mem_cons, not_or]
    exact ⟨hk12, hk1mid⟩
  have hlen1 : (k1 :: k2 :: mid ++ [klast]).length - (mid.length + 2) = 1 := by
    simp only [List.length_cons, List.length_append, List.length_nil]
    omega
  have hlen0 : (k1 :: k2 :: mid).length - (mid.length + 2) = 0 := by
    simp only [List.length_cons]
    omega
  -- the state after inserting the first C = mid.length + 2 distinct keys
  have hstateS : ServerJs.SetAll (mid.length + 2) (k1 :: k2 :: mid) v
      = (k1, v) :: ((k2 :: mid).map (fun k => (k, v))) := by
    rw [ServerJs.SetAll_eq_drop (mid.length + 2) (by omega) _ v hnd0, hlen0,
      List.drop_zero]
    simp
  have hstateP : Part000.setAll (mid.length + 2) now ttl (k1 :: k2 :: mid) v
      = (k1, Part000.Entry.mk v now ttl)
          :: ((k2 :: mid).map (fun k => (k, Part000.Entry.mk v now ttl))) := by
    rw [Part000.setAll_eq_drop (mid.length + 2) now ttl _ v hnd0, hlen0,
      List.drop_zero]
    simp
  refine ⟨?_, ?_, ?_, ?_⟩
  · rw [ServerJs.SetAll_eq_drop (mid.length + 2) (by omega) _ v hnd,
      map_fst_drop_map_const, hlen1]
    rfl
  · rw [hstateS, ServerJs.Get_found (jsFind?_cons_self k1 v _),
      jsDelete_cons_self]
    have hk1notin : k1 ∉ ((k2 :: mid).map (fun k => (k, v))).map Prod.fst := by
      rw [map_fst_map_const]
      simp only [List.mem_cons, not_or]
      exact ⟨hk12, hk1mid⟩
    rw [jsMapSet_of_not_mem _ hk1notin]
    have hlastnotin :
        klast ∉ ((k2 :: mid).map (fun k => (k, v)) ++ [(k1, v)]).map Prod.fst := by
      rw [List.map_append, map_fst_map_const]
      intro hmem
      rcases List.mem_append.mp hmem with hin | hin
      · rcases List.mem_cons.mp hin with h | h
        · exact hk2last h.symm
        · exact hlastmid h
      · simp at hin
        exact hk1last hin.symm
    rw [ServerJs.Set_fresh _ _ _ _ hlastnotin,
      if_pos (by simp only [List.length_append, List.length_map, List.length_cons,
        List.length_nil]; omega)]
    simp [map_fst_map_const, map_fst_comp_const]
  · rw [Part000.setAll_eq_drop (mid.length + 2) now ttl _ v hnd,
      map_fst_drop_map_const, hlen1]
    rfl
  · rw [hstateP,
      Part000.get_found_fresh (jsFind?_cons_self k1 (Part000.Entry.mk v now ttl) _)
        (by dsimp only; omega)]
    unfold Part000.touch
    rw [jsDelete_cons_self]
    have hk1notin : k1 ∉
        ((k2 :: mid).map (fun k => (k, Part000.Entry.mk v now ttl))).map Prod.fst := by
      rw [map_fst_map_const]
      simp only [List.mem_cons, not_or]
      exact ⟨hk12, hk1mid⟩
    rw [jsMapSet_of_not_mem _ hk1notin]
    have hlastnotin : klast ∉
        ((k2 :: mid).map (fun k => (k, Part000.Entry.mk v now ttl))
          ++ [(k1, Part000.Entry.mk v now ttl)]).map Prod.fst := by
      rw [List.map_append, map_fst_map_const]
      intro hmem
      rcases List.mem_append.mp hmem with hin | hin
      · rcases List.mem_cons.mp hin with h | h
        · exact hk2last h.symm
        · exact hlastmid h
      · simp at hin
        exact hk1last hin.symm
    rw [Part000.set_fresh _ _ _ _ _ _ hlastnotin]
    have hidx : (((k2 :: mid).map (fun k => (k, Part000.Entry.mk v now ttl))
          ++ [(k1, Part000.Entry.mk v now ttl)]).length + 1) - (mid.length + 2) = 1 := by
      simp only [List.length_append, List.length_map, List.length_cons,
        List.length_nil]
      omega
    rw [hidx]
    simp [map_fst_map_const, map_fst_comp_const]

section TtlLemmas

variable {K V : Type} [DecidableEq K]

theorem jsFind?_cons_pos {p : K × V} {tl : List (K × V)} {k : K} (h : p.1 = k) :
    jsFind? (p :: tl) k = some p := by
  unfold jsFind?
  rw [List.find?_cons_of_pos _ (by simp [h])]

theorem jsFind?_cons_neg {p : K × V} {tl : List (K × V)} {k : K} (h : p.1 ≠ k) :
    jsFind? (p :: tl) k = jsFind? tl k := by
  unfold jsFind?
  rw [List.find?_cons_of_neg _ (by simp [h])]

theorem jsDelete_cons_pos {p : K × V} {tl : List (K × V)} {k : K} (h : p.1 = k) :
    jsDelete (p :: tl) k = tl := by
  unfold jsDelete
  rw [List.eraseP_cons_of_pos (by simp [h])]

theorem jsDelete_cons_neg {p : K × V} {tl : List (K × V)} {k : K} (h : p.1 ≠ k) :
    jsDelete (p :: tl) k = p :: jsDelete tl k := by
  unfold jsDelete
  rw [List.eraseP_cons_of_neg (by simp [h])]

theorem jsFind?_jsDelete_ne {m : List (K × V)} {j k : K} (h : k ≠ j) :
    jsFind? (jsDelete m j) k = jsFind? m k := by
  induction m with
  | nil => rfl
  | cons p tl ih =>
    by_cases hp : p.1 = j
    · rw [jsDelete_cons_pos hp, jsFind?_cons_neg (fun hk => h (hk.symm.trans hp))]
    · rw [jsDelete_cons_neg hp]
      by_cases hk : p.1 = k
      · rw [jsFind?_cons_pos hk, jsFind?_cons_pos hk]
      · rw [jsFind?_cons_neg hk, jsFind?_cons_neg hk, ih]

theorem jsFind?_append_self {m : List (K × V)} {k : K}
    (h : k ∉ m.map Prod.fst) (e : V) :
    jsFind? (m ++ [(k, e)]) k = some (k, e) := by
  induction m with
  | nil => rw [List.nil_append, jsFind?_cons_pos rfl]
  | cons p tl ih =>
    simp only [List.map_cons, List.mem_cons, not_or] at h
    rw [List.cons_append, jsFind?_cons_neg (fun hk => h.1 hk.symm)]
    exact ih h.2

theorem jsFind?_append_ne {m : List (K × V)} {j k : K} (h : k ≠ j) (e : V) :
    jsFind? (m ++ [(j, e)]) k = jsFind? m k := by
  induction m with
  | nil =>
    rw [List.nil_append, jsFind?_cons_neg (fun hk => h hk.symm)]
  | cons p tl ih =>
    by_cases hk : p.1 = k
    · rw [List.cons_append, jsFind?_cons_pos hk, jsFind?_cons_pos hk]
    · rw [List.cons_append, jsFind?_cons_neg hk, jsFind?_cons_neg hk, ih]

theorem not_mem_keys_jsDelete_self {m : List (K × V)} (hnd : KeysNodup m) (k : K) :
    k ∉ (jsDelete m k).map Prod.fst := by
  induction m with
  | nil => simp [jsDelete]
  | cons p tl ih =>
    obtain ⟨hp, htl⟩ := List.nodup_cons.mp hnd
    by_cases hk : p.1 = k
    · rw [jsDelete_cons_pos hk]
      exact hk ▸ hp
    · rw [jsDelete_cons_neg hk]
      simp only [List.map_cons, List.mem_cons, not_or]
      exact ⟨fun h => hk h.symm, ih htl⟩

theorem keysNodup_jsDelete {m : List (K × V)} (hnd : KeysNodup m) (k : K) :
    KeysNodup (jsDelete m k) :=
  ((List.eraseP_sublist m).map Prod.fst).nodup hnd

theorem jsFind?_eq_of_entry? {m : List (K × V)} {k : K} {e : V}
    (h : jsEntry? m k = some e) : jsFind? m k = some (k, e) := by
  unfold jsEntry? at h
  cases hf : jsFind? m k with
  | none => rw [hf] at h; simp at h
  | some p =>
    rw [hf] at h
    simp only [Option.map_some'] at h
    have hk : p.1 = k := by
      have := List.find?_some hf
      simpa using this
    obtain ⟨a, b⟩ := p
    simp only at hk
    have hbe : b = e := Option.some.inj h
    rw [hk, hbe]

theorem jsFind?_eq_none_of_entry?_none {m : List (K × V)} {k : K}
    (h : jsEntry? m k = none) : jsFind? m k = none := by
  unfold jsEntry? at h
  exact Option.map_eq_none'.mp h

/-- part_000 `get` preserves key uniqueness. -/
theorem Part000.get_keysNodup (now : Nat) (m : Part000.Map K V) (j : K)
    (hnd : KeysNodup m) : KeysNodup (Part000.get now m j).2 := by
  unfold Part000.get
  cases hf : jsFind? m j with
  | none => exact hnd
  | some p =>
    obtain ⟨kj, ej⟩ := p
    have hkj : kj = j := by
      have := List.find?_some hf
      simpa using this
    rw [hkj] at hf
    by_cases hexp : ej.ts + ej.ttl < now
    · simpa [hexp] using keysNodup_jsDelete hnd j
    · simp only [hexp, if_false]
      unfold Part000.touch
      rw [jsMapSet_of_not_mem _ (not_mem_keys_jsDelete_self hnd j)]
      unfold KeysNodup
      rw [List.map_append]
      refine List.nodup_append.mpr ⟨keysNodup_jsDelete hnd j, List.nodup_singleton _, ?_⟩
      intro a ha hb
      simp only [List.map_cons, List.map_nil, List.mem_singleton] at hb
      exact not_mem_keys_jsDelete_self hnd j (hb ▸ ha)

/-- A part_000 `get` of any key either leaves the entry stored under `k`
unchanged (the same `value`/`ts`/`ttl`) or removes it; it never replaces
it with a different entry. -/
theorem Part000.get_entry_stable (now : Nat) (m : Part000.Map K V) (j k : K)
    (hnd : KeysNodup m) :
    jsEntry? (Part000.get now m j).2 k = jsEntry? m k
    ∨ jsEntry? (Part000.get now m j).2 k = none := by
  unfold Part000.get
  cases hf : jsFind? m j with
  | none => left; rfl
  | some p =>
    obtain ⟨kj, ej⟩ := p
    have hkj : kj = j := by
      have := List.find?_some hf
      simpa using this
    rw [hkj] at hf
    by_cases hexp : ej.ts + ej.ttl < now
    · simp only [hexp, if_true]
      by_cases hk : k = j
      · right
        rw [hk]
        simp [jsEntry?, jsFind?_eq_none_of_not_mem (not_mem_keys_jsDelete_self hnd j)]
      · left
        simp [jsEntry?, jsFind?_jsDelete_ne hk]
    · simp only [hexp, if_false]
      unfold Part000.touch
      rw [jsMapSet_of_not_mem _ (not_mem_keys_jsDelete_self hnd j)]
      by_cases hk : k = j
      · left
        rw [hk]
        simp only [jsEntry?]
        rw [jsFind?_append_self (not_mem_keys_jsDelete_self hnd j) ej, hf]
      · left
        simp only [jsEntry?]
        rw [jsFind?_append_ne hk ej, jsFind?_jsDelete_ne hk]

/-- Once absent (or never present), a key stays absent across a `get`
of any key. -/
theorem Part000.get_entry_none_stable (now : Nat) (m : Part000.Map K V) (j k : K)
    (hnd : KeysNodup m) (h : jsEntry? m k = none) :
    jsEntry? (Part000.get now m j).2 k = none := by
  rcases Part000.get_entry_stable now m j k hnd with hsame | hnone
  · rw [hsame]; exact h
  · exact hnone

/-- Iterated form of `Part000.get_entry_stable` over any sequence of
`get` operations. -/
theorem Part000.getAll_entry_stable (ops : List (Nat × K)) (m : Part000.Map K V)
    (k : K) (e : Part000.Entry V) (hnd : KeysNodup m)
    (he : jsEntry? m k = some e ∨ jsEntry? m k = none) :
    KeysNodup (Part000.getAll ops m)
    ∧ (jsEntry? (Part000.getAll ops m) k = some e
       ∨ jsEntry? (Part000.getAll ops m) k = none) := by
  induction ops generalizing m with
  | nil => exact ⟨hnd, he⟩
  | cons op ops ih =>
    have hnd' := Part000.get_keysNodup op.1 m op.2 hnd
    have hstep : jsEntry? (Part000.get op.1 m op.2).2 k = some e
        ∨ jsEntry? (Part000.get op.1 m op.2).2 k = none := by
      rcases he with hsome | hnone
      · rcases Part000.get_entry_stable op.1 m op.2 k hnd with hsame | hnone2
        · exact Or.inl (hsame.trans hsome)
        · exact Or.inr hnone2
      · exact Or.inr (Part000.get_entry_none_stable op.1 m op.2 k hnd hnone)
    have := ih _ hnd' hstep
    simpa [Part000.getAll] using this

end TtlLemmas

/-- C10: on the part_000 cache, a hit's recency bump re-inserts the
entry object unchanged (`ts` and `ttl` preserved), so after any sequence
of `get` operations the entry under `k` is either exactly the original
entry or absent — never a rejuvenated one — and a `get` of `k` performed
at any time `t` with `t > ts + ttl` returns absent, no matter how many
hits occurred in between. -/
theorem claim_c10_hits_never_extend_ttl {K V : Type} [DecidableEq K]
    (m : Part000.Map K V) (k : K) (e : Part000.Entry V)
    (hnd : KeysNodup m) (he : jsEntry? m k = some e) (ops : List (Nat × K)) :
    (jsEntry? (Part000.getAll ops m) k = some e
     ∨ jsEntry? (Part000.getAll ops m) k = none)
    ∧ ∀ t, e.ts + e.ttl < t → (Part000.get t (Part000.getAll ops m) k).1 = none := by
  obtain ⟨hnd', hstable⟩ := Part000.getAll_entry_stable ops m k e hnd (Or.inl he)
  refine ⟨hstable, fun t ht => ?_⟩
  rcases hstable with hsome | hnone
  · have hf := jsFind?_eq_of_entry? hsome
    unfold Part000.get
    rw [hf]
    simp [ht]
  · have hf := jsFind?_eq_none_of_entry?_none hnone
    unfold Part000.get
    rw [hf]

/-- C10 witness: an entry inserted at time 10 with TTL 3, hit twice at
times 11 and 12, is still reported absent by a get at time 14. -/
theorem claim_c10_witness :
    KeysNodup [((0 : Nat), Part000.Entry.mk (5 : Nat) 10 3)]
    ∧ jsEntry? [((0 : Nat), Part000.Entry.mk (5 : Nat) 10 3)] 0
        = some (Part000.Entry.mk 5 10 3)
    ∧ (Part000.get 14
        (Part000.getAll [(11, 0), (12, 0)] [((0 : Nat), Part000.Entry.mk (5 : Nat) 10 3)])
        0).1 = none :=
  ⟨by decide, by decide,
    (claim_c10_hits_never_extend_ttl [((0 : Nat), Part000.Entry.mk (5 : Nat) 10 3)] 0
      (Part000.Entry.mk 5 10 3) (by decide) (by decide) [(11, 0), (12, 0)]).2 14 (by decide)⟩

/-- C6 (amended): on the part_000 cache, a `get` at a time strictly
later than `insertedAt + ttl` removes the entry and returns absent, and
every subsequent `get` of that key also returns absent; a hit is never
returned strictly older than its TTL (`now ≤ ts + ttl`).  At the exact
boundary `now = insertedAt + ttl` the entry is still returned — the
code's expiry test is `ts + ttl < now`, not `≤`. -/
theorem claim_c6_ttl_lazy_expiry {K V : Type} [DecidableEq K]
    (m : Part000.Map K V) (k : K) (e : Part000.Entry V)
    (hnd : KeysNodup m) (he : jsEntry? m k = some e) (now : Nat) :
    (e.ts + e.ttl < now →
      (Part000.get now m k).1 = none
      ∧ (Part000.get now m k).2 = Part000.delete m k
      ∧ jsEntry? (Part000.get now m k).2 k = none
      ∧ ∀ t2, (Part000.get t2 (Part000.get now m k).2 k).1 = none)
    ∧ ((Part000.get now m k).1.isSome = true → now ≤ e.ts + e.ttl) := by
  have hf := jsFind?_eq_of_entry? he
  constructor
  · intro hexp
    have hget : Part000.get now m k = (none, jsDelete m k) := by
      unfold Part000.get
      rw [hf]
      simp [hexp]
    have hent : jsEntry? (jsDelete m k) k = none := by
      simp [jsEntry?, jsFind?_eq_none_of_not_mem (not_mem_keys_jsDelete_self hnd k)]
    refine ⟨by rw [hget], by rw [hget]; rfl, by rw [hget]; exact hent, fun t2 => ?_⟩
    rw [hget]
    have hf2 := jsFind?_eq_none_of_entry?_none hent
    unfold Part000.get
    rw [hf2]
  · intro hsome
    by_contra hlt
    push_neg at hlt
    have hget : Part000.get now m k = (none, jsDelete m k) := by
      unfold Part000.get
      rw [hf]
      simp [hlt]
    rw [hget] at hsome
    simp at hsome

/-- C6 counterexample: the claim's boundary is wrong.  With
`insertedAt = 0` and `ttl = 1`, a `get` at `now = 1` (so
`now ≥ insertedAt + ttl`) still returns the value: the code expires only
when `ts + ttl < now` holds strictly. -/
theorem claim_c6_counterexample :
    (Part000.get 1 (Part000.set 100 0 ([] : Part000.Map Nat Nat) 0 37 1) 0).1
      = some 37 := by
  decide

/-!
## Tiling

Pixel buffers are byte lists (4 bytes per pixel, RGBA).  The tilers
return tile pixel data as raw byte lists; the base64 step
(`toString('base64')`) is an injective transport encoding and is not
modelled.  `Buffer.copy(dst, dstOff, srcStart, srcEnd)` into a
freshly allocated, exactly-sized buffer row by row is modelled by
`copyRows`; `Buffer.slice(start, end)` (which clamps `end` to the
buffer length) by `jsSlice`.
-/

/-- The row-by-row sub-rectangle copy shared by `RenderLatexImage`
(src/unnamed/part_003 256-262) and `TileRawRgba` (src/unnamed/part_005
65-71), and written (but unreachable, see `SplitIntoTiles`) at
src/server.js 139-144: for each of the `th` tile rows, `tw * 4` bytes
are copied from the source row at offset
`((startY + row) * width + startX) * 4`. -/
def copyRows (buf : List Nat) (width startX startY tw th : Nat) : List Nat :=
  (List.range th).flatMap fun row =>
    (buf.drop (((startY + row) * width + startX) * 4)).take (tw * 4)

/-- `Buffer.slice(s, e)`: the bytes in `[s, min e len)`. -/
def jsSlice (buf : List Nat) (s e : Nat) : List Nat :=
  (buf.drop s).take (e - s)

/-- The `{Tiles, TileWidths, TileHeights}` record returned by each
tiler. -/
structure TileSplit where
  tiles : List (List Nat)
  tileWidths : List Nat
  tileHeights : List Nat
  deriving DecidableEq, Repr

set_option linter.unusedVariables false in
/-- `SplitIntoTiles(Buffer, Width, Height)` from src/server.js 107-151:
`MaxTileSize = 1024`; `NumTilesX/Y = Math.ceil(dim / 1024)`.  The
function's first parameter is named `Buffer` and shadows Node's global
`Buffer` class, so while `Buffer.slice(0)` (line 136, an instance
method) succeeds, `Buffer.alloc(TileWidth * TileHeight * 4)` (line 137)
looks `alloc` up on the buffer instance, finds `undefined`, and throws
`TypeError` — on the very first iteration of the tile loops.  That
iteration is reached exactly when both loops are nonempty
(`NumTilesX ≥ 1` and `NumTilesY ≥ 1`), i.e. whenever the function would
emit at least one tile; the per-row copy loop written at lines 139-144
is unreachable.  When no tile iteration runs, only the metadata pushes
execute: per-column tile widths during `TileY === 0` (zero pushes when
`NumTilesX = 0`) and one tile height per row band (the `TileY <
NumTilesY` guard being vacuously true), and the function returns with
`Tiles = []`. -/
def SplitIntoTiles (buffer : List Nat) (width height : Nat) : Except String TileSplit :=
  let maxTileSize := 1024
  let numTilesX := (width + (maxTileSize - 1)) / maxTileSize
  let numTilesY := (height + (maxTileSize - 1)) / maxTileSize
  if 0 < numTilesX ∧ 0 < numTilesY then
    Except.error "Buffer.alloc is not a function"
  else
    Except.ok
      { tiles := [],
        tileWidths := [],
        tileHeights := (List.range numTilesY).map
          (fun tileY => min maxTileSize (height - tileY * maxTileSize)) }

/-- `TileRawRgba(raw, width, height, tileWidth, tileHeight)` from
src/unnamed/part_005 57-78: row-major emission; per-tile `tw`/`th` are
pushed once per tile.  The step loops `for (y = 0; y < height;
y += tileHeight)` run `⌈height / tileHeight⌉` times (the embedding
assumes `tileWidth, tileHeight ≥ 1`, as in every call site, which passes
1024). -/
def TileRawRgba (raw : List Nat) (width height tileWidth tileHeight : Nat) : TileSplit :=
  let numY := (height + (tileHeight - 1)) / tileHeight
  let numX := (width + (tileWidth - 1)) / tileWidth
  (List.range numY).foldl
    (fun acc iy =>
      let y := iy * tileHeight
      let th := min tileHeight (height - y)
      (List.range numX).foldl
        (fun acc2 ix =>
          let x := ix * tileWidth
          let tw := min tileWidth (width - x)
          { tiles := acc2.tiles ++ [copyRows raw width x y tw th],
            tileWidths := acc2.tileWidths ++ [tw],
            tileHeights := acc2.tileHeights ++ [th] })
        acc)
    ⟨[], [], []⟩

/-- `SplitBufferToTiles(Buffer, Width, Height, TileWidth, TileHeight)`
from src/unnamed/part_003 218-236: one tile height per row band, one
tile width per tile, and each tile is
`Buffer.slice((y*Width + x)*4, ((y+th)*Width + (x+tw))*4)` — a
contiguous slice of the source buffer, not a row-by-row sub-rectangle
copy. -/
def SplitBufferToTiles (buffer : List Nat) (width height tileWidth tileHeight : Nat) :
    TileSplit :=
  let bytesPerPixel := 4
  let numY := (height + (tileHeight - 1)) / tileHeight
  let numX := (width + (tileWidth - 1)) / tileWidth
  (List.range numY).foldl
    (fun acc iy =>
      let y := iy * tileHeight
      let currentTileHeight := min tileHeight (height - y)
      let acc := { acc with tileHeights := acc.tileHeights ++ [currentTileHeight] }
      (List.range numX).foldl
        (fun acc2 ix =>
          let x := ix * tileWidth
          let currentTileWidth := min tileWidth (width - x)
          { acc2 with
            tileWidths := acc2.tileWidths ++ [currentTileWidth],
            tiles := acc2.tiles ++ [jsSlice buffer ((y * width + x) * bytesPerPixel)
              (((y + currentTileHeight) * width + (x + currentTileWidth)) * bytesPerPixel)] })
        acc)
    ⟨[], [], []⟩

/-- The `{tiles, tileWidths, tileHeights, width, height, bytesPerPixel,
channelOrder, pixelDensity}` value built by part_002's
`svgToRgbaTiles`. -/
structure TilesResult where
  tiles : List (List Nat)
  tileWidths : List Nat
  tileHeights : List Nat
  width : Nat
  height : Nat
  bytesPerPixel : Nat
  channelOrder : String
  pixelDensity : Nat
  deriving DecidableEq, Repr

/-- `svgToRgbaTiles(svg, pixelDensity)` from src/unnamed/part_002 59-79,
taking the rasterized image (its pixel bytes and the `width`/`height`
reported by `sharp().metadata()`) as input: a zero/undefined dimension
throws `"invalid raster dimensions"`; otherwise tiles are extracted
(`sharp().extract` yields the row-major sub-rectangle) in row-major
order with per-tile width and height pushes. -/
def svgToRgbaTiles (png : List Nat) (width height pixelDensity : Nat) :
    Except String TilesResult :=
  if width = 0 ∨ height = 0 then .error "invalid raster dimensions"
  else
    let numY := (height + 1023) / 1024
    let numX := (width + 1023) / 1024
    let t := (List.range numY).foldl
      (fun acc iy =>
        let top := iy * 1024
        let rowHeight := min 1024 (height - top)
        (List.range numX).foldl
          (fun acc2 ix =>
            let left := ix * 1024
            let tileWidth := min 1024 (width - left)
            { tiles := acc2.tiles ++ [copyRows png width left top tileWidth rowHeight],
              tileWidths := acc2.tileWidths ++ [tileWidth],
              tileHeights := acc2.tileHeights ++ [rowHeight] })
          acc)
      (⟨[], [], []⟩ : TileSplit)
    .ok { tiles := t.tiles, tileWidths := t.tileWidths, tileHeights := t.tileHeights,
          width := width, height := height, bytesPerPixel := 4,
          channelOrder := "RGBA", pixelDensity := pixelDensity }

/-!
### Tile reassembly (the consumer side of the tiling contract)

The spec's consumer reconstructs the image by laying tiles
left-to-right, wrapping to the next row band, using the returned
per-tile dimensions.  `reassembleRows` interleaves the rows of one
band's tiles; `reassemble` peels one band of `numX` tiles at a time.
-/

/-- Reassemble one row band: for each of the band's `th` rows,
concatenate that row of every tile (each tile paired with its width). -/
def reassembleRows (tiles : List (List Nat)) (tws : List Nat) (th : Nat) : List Nat :=
  (List.range th).flatMap fun r =>
    (tiles.zip tws).flatMap fun p => (p.1.drop (r * (p.2 * 4))).take (p.2 * 4)

set_option linter.unusedVariables false in
/-- Reassemble a full tiling: repeatedly take the next `numX` tiles as
one row band (whose height is the band's first tile height) and stack
the bands. -/
def reassemble (numX : Nat) (tiles : List (List Nat)) (tws ths : List Nat) : List Nat :=
  if h : numX = 0 ∨ tiles = [] then []
  else
    reassembleRows (tiles.take numX) (tws.take numX) (ths.headD 0)
      ++ reassemble numX (tiles.drop numX) (tws.drop numX) (ths.drop numX)
termination_by tiles.length
decreasing_by
  push_neg at h
  have h3 : 0 < tiles.length := List.length_pos.mpr h.2
  simp only [List.length_drop]
  omega

/-- Consecutive step-`S` chunks (each clamped by `take`) concatenate
back to the original list, as soon as `n` chunks reach past its end. -/
theorem segments_cover {α : Type} (S : Nat) :
    ∀ (n : Nat) (l : List α), l.length ≤ n * S →
      (List.range n).flatMap (fun i => (l.drop (i * S)).take S) = l := by
  intro n
  induction n with
  | zero =>
    intro l hl
    have : l = [] := List.eq_nil_of_length_eq_zero (by omega)
    simp [this]
  | succ n ih =>
    intro l hl
    rw [List.range_succ_eq_map, List.flatMap_cons, List.flatMap_map]
    have htail : ((List.range n).flatMap fun i => ((l.drop (Nat.succ i * S)).take S))
        = (List.range n).flatMap fun i => (((l.drop S).drop (i * S)).take S) := by
      apply List.flatMap_congr
      intro i _
      rw [List.drop_drop, Nat.succ_mul, Nat.add_comm S (i * S)]
    rw [htail, ih (l.drop S) (by
      have hstep : (n + 1) * S = n * S + S := by ring
      simp only [List.length_drop]
      omega)]
    simp

theorem flatMap_singleton_map {α β : Type} (l : List α) (f : α → β) :
    l.flatMap (fun x => [f x]) = l.map f := by
  induction l with
  | nil => rfl
  | cons x tl ih => simp [ih]

theorem foldl_append_singleton {α β : Type} (g : β → α) (l : List β) (init : List α) :
    l.foldl (fun acc x => acc ++ [g x]) init = init ++ l.map g := by
  induction l generalizing init with
  | nil => simp
  | cons x tl ih => simp [ih]

/-- A double-append fold over a `TileSplit` accumulator is the
concatenation of its per-element contributions. -/
theorem foldl_tileSplit_append (l : List Nat) (A : Nat → List (List Nat))
    (B C : Nat → List Nat) (init : TileSplit) :
    l.foldl (fun acc i =>
        ⟨acc.tiles ++ A i, acc.tileWidths ++ B i, acc.tileHeights ++ C i⟩) init
      = ⟨init.tiles ++ l.flatMap A, init.tileWidths ++ l.flatMap B,
         init.tileHeights ++ l.flatMap C⟩ := by
  induction l generalizing init with
  | nil => simp
  | cons x tl ih => simp [ih]

/-- `TileRawRgba` in closed form: the row-major families of tiles,
per-tile widths and per-tile heights. -/
theorem TileRawRgba_eq (buf : List Nat) (width height tw th : Nat) :
    TileRawRgba buf width height tw th =
      ⟨(List.range ((height + (th - 1)) / th)).flatMap fun iy =>
          (List.range ((width + (tw - 1)) / tw)).map fun ix =>
            copyRows buf width (ix * tw) (iy * th) (min tw (width - ix * tw))
              (min th (height - iy * th)),
        (List.range ((height + (th - 1)) / th)).flatMap fun _ =>
          (List.range ((width + (tw - 1)) / tw)).map fun ix => min tw (width - ix * tw),
        (List.range ((height + (th - 1)) / th)).flatMap fun iy =>
          (List.range ((width + (tw - 1)) / tw)).map fun _ =>
            min th (height - iy * th)⟩ := by
  unfold TileRawRgba
  simp only [foldl_tileSplit_append, flatMap_singleton_map, List.nil_append]

theorem getD_map_range {α : Type} {n r : Nat} (f : Nat → α) (d : α) (hr : r < n) :
    ((List.range n).map f).getD r d = f r := by
  rw [List.getD_eq_getElem?_getD, List.getElem?_map, List.getElem?_range hr]
  rfl

/-- Extracting the `r`-th block of a flattened list of equal-length
blocks. -/
theorem flatten_row_extract {α : Type} (xss : List (List α)) (L : Nat)
    (h : ∀ xs ∈ xss, xs.length = L) :
    ∀ r, r < xss.length → ((xss.flatten).drop (r * L)).take L = xss.getD r [] := by
  induction xss with
  | nil =>
    intro r hr
    simp at hr
  | cons xs tl ih =>
    intro r hr
    have hxs : xs.length = L := h xs (List.mem_cons_self xs tl)
    cases r with
    | zero =>
      simp only [List.flatten_cons, Nat.zero_mul, List.drop_zero, List.getD_cons_zero]
      rw [← hxs, List.take_left]
    | succ r =>
      simp only [List.flatten_cons, List.getD_cons_succ]
      rw [Nat.succ_mul, Nat.add_comm (r * L) L, ← hxs, List.drop_append]
      rw [hxs]
      exact ih (fun ys hys => h ys (List.mem_cons_of_mem xs hys)) r
        (by simpa using Nat.lt_of_succ_lt_succ hr)

/-- The `r`-th row of a `copyRows` tile is the corresponding row segment
of the source buffer, provided the copied region is in bounds. -/
theorem copyRows_row (buf : List Nat) (width startX startY tw th r : Nat)
    (hr : r < th)
    (hin : ∀ i, i < th → ((startY + i) * width + startX) * 4 + tw * 4 ≤ buf.length) :
    ((copyRows buf width startX startY tw th).drop (r * (tw * 4))).take (tw * 4)
      = (buf.drop (((startY + r) * width + startX) * 4)).take (tw * 4) := by
  have hflat : copyRows buf width startX startY tw th
      = ((List.range th).map fun row =>
          (buf.drop (((startY + row) * width + startX) * 4)).take (tw * 4)).flatten := rfl
  rw [hflat]
  rw [flatten_row_extract _ (tw * 4) ?hlens r (by simpa using hr)]
  · exact getD_map_range _ [] hr
  case hlens =>
    intro ys hys
    rcases List.mem_map.mp hys with ⟨i, hi, hiy⟩
    have hi' : i < th := List.mem_range.mp hi
    rw [← hiy]
    simp only [List.length_take, List.length_drop]
    have := hin i hi'
    omega

theorem min_mul_right (a b c : Nat) : min a b * c = min (a * c) (b * c) := by
  rcases Nat.le_total a b with h | h
  · rw [Nat.min_eq_left h, Nat.min_eq_left (Nat.mul_le_mul_right c h)]
  · rw [Nat.min_eq_right h, Nat.min_eq_right (Nat.mul_le_mul_right c h)]

/-- An index below `⌈n / d⌉` addresses a strip starting inside `n`. -/
theorem mul_lt_of_lt_ceilDiv {n d k : Nat} (hd : 1 ≤ d)
    (hk : k < (n + (d - 1)) / d) : k * d < n := by
  by_contra hge
  push_neg at hge
  have h1 : (n + (d - 1)) / d < k + 1 := by
    rw [Nat.div_lt_iff_lt_mul (by omega)]
    have hkd : (k + 1) * d = k * d + d := by ring
    omega
  omega

/-- `⌈n / d⌉` strips of size `d` reach past `n`. -/
theorem le_ceilDiv_mul (n d : Nat) (hd : 1 ≤ d) : n ≤ ((n + (d - 1)) / d) * d := by
  have hdm := Nat.div_add_mod (n + (d - 1)) d
  have hr : (n + (d - 1)) % d < d := Nat.mod_lt _ (by omega)
  have hcomm : ((n + (d - 1)) / d) * d = d * ((n + (d - 1)) / d) := Nat.mul_comm _ _
  omega

/-- One row band of `copyRows` tiles reassembles to the corresponding
band slice of the source buffer. -/
theorem band_reassembles (buf : List Nat) (width height tw th y : Nat)
    (htw : 1 ≤ tw) (hyh : y + min th (height - y) ≤ height)
    (hlen : buf.length = width * height * 4) :
    reassembleRows
      ((List.range ((width + (tw - 1)) / tw)).map fun ix =>
        copyRows buf width (ix * tw) y (min tw (width - ix * tw)) (min th (height - y)))
      ((List.range ((width + (tw - 1)) / tw)).map fun ix => min tw (width - ix * tw))
      (min th (height - y))
    = (buf.drop (y * (width * 4))).take (min th (height - y) * (width * 4)) := by
  set numX := (width + (tw - 1)) / tw with hnumX
  set bh := min th (height - y) with hbh
  unfold reassembleRows
  rw [List.zip_map']
  have hband : ∀ r, r < bh →
      ((List.range numX).map fun a =>
          (copyRows buf width (a * tw) y (min tw (width - a * tw)) bh,
           min tw (width - a * tw))).flatMap
        (fun p => (p.1.drop (r * (p.2 * 4))).take (p.2 * 4))
      = ((((buf.drop (y * (width * 4))).take (bh * (width * 4))).drop
          (r * (width * 4))).take (width * 4)) := by
    intro r hr
    rw [List.flatMap_map]
    have hrow : ∀ ix, ix < numX →
        ((copyRows buf width (ix * tw) y (min tw (width - ix * tw)) bh).drop
            (r * (min tw (width - ix * tw) * 4))).take (min tw (width - ix * tw) * 4)
        = (((buf.drop ((y + r) * (width * 4))).take (width * 4)).drop (ix * (tw * 4))).take
            (tw * 4) := by
      intro ix hix
      have hxw : ix * tw < width := mul_lt_of_lt_ceilDiv htw hix
      have hin : ∀ i, i < bh →
          ((y + i) * width + ix * tw) * 4 + min tw (width - ix * tw) * 4 ≤ buf.length := by
        intro i hi
        rw [hlen]
        have h1 : min tw (width - ix * tw) ≤ width - ix * tw := Nat.min_le_right _ _
        have hile : i < height - y :=
          lt_of_lt_of_le hi (by rw [hbh]; exact Nat.min_le_right _ _)
        have h2 : y + i + 1 ≤ height := by omega
        calc ((y + i) * width + ix * tw) * 4 + min tw (width - ix * tw) * 4
            ≤ ((y + i) * width + ix * tw) * 4 + (width - ix * tw) * 4 := by
              exact Nat.add_le_add_left (Nat.mul_le_mul_right 4 h1) _
          _ = ((y + i) * width + ix * tw + (width - ix * tw)) * 4 := by ring
          _ = ((y + i) * width + width) * 4 := by
              have hsplit : ix * tw + (width - ix * tw) = width :=
                Nat.add_sub_cancel' (le_of_lt hxw)
              rw [Nat.add_assoc, hsplit]
          _ = ((y + i + 1) * width) * 4 := by ring
          _ ≤ (height * width) * 4 := by
              exact Nat.mul_le_mul_right 4 (Nat.mul_le_mul_right width h2)
          _ = width * height * 4 := by ring
      rw [copyRows_row buf width (ix * tw) y (min tw (width - ix * tw)) bh r hr hin]
      rw [List.drop_take, List.take_take]
      rw [List.drop_drop]
      congr 1
      · rw [min_mul_right, Nat.sub_mul]
        congr 1
        ring_nf
      · ring_nf
    rw [List.flatMap_congr (fun ix hix => hrow ix (List.mem_range.mp hix))]
    have hseg := segments_cover (tw * 4) numX
      ((buf.drop ((y + r) * (width * 4))).take (width * 4))
      (by
        have h1 : width ≤ numX * tw := by
          have := le_ceilDiv_mul width tw htw
          rw [hnumX]
          omega
        have h2 : width * 4 ≤ numX * tw * 4 := Nat.mul_le_mul_right 4 h1
        simp only [List.length_take, List.length_drop]
        have h3 : numX * tw * 4 = numX * (tw * 4) := by ring
        omega)
    rw [hseg]
    rw [List.drop_take, List.take_take, List.drop_drop]
    congr 1
    · have h4 : bh * (width * 4) - r * (width * 4) = (bh - r) * (width * 4) := by
        rw [Nat.sub_mul]
      rw [h4]
      have h5 : width * 4 ≤ (bh - r) * (width * 4) := by
        have : 1 ≤ bh - r := by omega
        calc width * 4 = 1 * (width * 4) := by ring
          _ ≤ (bh - r) * (width * 4) := Nat.mul_le_mul_right _ this
      rw [Nat.min_eq_left h5]
    · ring_nf
  rw [List.flatMap_congr (fun r hr => hband r (List.mem_range.mp hr))]
  exact segments_cover (width * 4) bh _ (by simp)

/-- `reassemble` peels one band of `numX` tiles at a time from a
band-structured tiling. -/
theorem reassemble_flatMap_bands (numX : Nat) (hx : 1 ≤ numX)
    (ys : List Nat) (tileF : Nat → Nat → List Nat) (wF : Nat → Nat) (hF : Nat → Nat) :
    reassemble numX
      (ys.flatMap fun iy => (List.range numX).map (tileF iy))
      (ys.flatMap fun _ => (List.range numX).map wF)
      (ys.flatMap fun iy => (List.range numX).map fun _ => hF iy)
    = ys.flatMap fun iy =>
        reassembleRows ((List.range numX).map (tileF iy))
          ((List.range numX).map wF) (hF iy) := by
  induction ys with
  | nil => simp [reassemble]
  | cons y tl ih =>
    rw [List.flatMap_cons, List.flatMap_cons, List.flatMap_cons, List.flatMap_cons]
    obtain ⟨m, rfl⟩ : ∃ m, numX = m + 1 := ⟨numX - 1, by omega⟩
    have hband_ne : ((List.range (m + 1)).map (tileF y)) ≠ [] := by
      simp [List.range_succ_eq_map]
    rw [reassemble]
    rw [dif_neg (by
      push_neg
      refine ⟨by omega, ?_⟩
      exact List.append_ne_nil_of_left_ne_nil hband_ne _)]
    rw [List.take_left' (by simp), List.drop_left' (by simp),
      List.take_left' (by simp), List.drop_left' (by simp),
      List.drop_left' (by simp)]
    have hhead : ((((List.range (m + 1)).map fun _ => hF y))
          ++ tl.flatMap fun iy => (List.range (m + 1)).map fun _ => hF iy).headD 0
        = hF y := by
      rw [List.range_succ_eq_map]
      simp
    rw [hhead, ih]

/-- Round trip of the per-row-copy tiler `TileRawRgba` (src/unnamed/
part_005): for every RGBA buffer of the declared `width × height`
dimensions, reassembling the emitted tiles in emission order using the
returned per-tile dimensions reproduces the original buffer byte for
byte.  (`SplitBufferToTiles` in part_003 uses a contiguous slice
instead of the per-row copy and violates this contract — see
`claim_c1_splitBufferToTiles_bug`.) -/
theorem TileRawRgba_reconstruction (buf : List Nat) (width height tw th : Nat)
    (htw : 1 ≤ tw) (hth : 1 ≤ th) (hw : 1 ≤ width)
    (hlen : buf.length = width * height * 4) :
    reassemble ((width + (tw - 1)) / tw)
      (TileRawRgba buf width height tw th).tiles
      (TileRawRgba buf width height tw th).tileWidths
      (TileRawRgba buf width height tw th).tileHeights
    = buf := by
  rw [TileRawRgba_eq]
  have hx : 1 ≤ (width + (tw - 1)) / tw := by
    rw [Nat.one_le_div_iff (by omega)]
    omega
  rw [reassemble_flatMap_bands _ hx]
  have hbands : ∀ iy ∈ List.range ((height + (th - 1)) / th),
      reassembleRows
        ((List.range ((width + (tw - 1)) / tw)).map fun ix =>
          copyRows buf width (ix * tw) (iy * th) (min tw (width - ix * tw))
            (min th (height - iy * th)))
        ((List.range ((width + (tw - 1)) / tw)).map fun ix => min tw (width - ix * tw))
        (min th (height - iy * th))
      = (buf.drop ((iy * th) * (width * 4))).take
          (min th (height - iy * th) * (width * 4)) := by
    intro iy hiy
    have hylt : iy * th < height := mul_lt_of_lt_ceilDiv hth (List.mem_range.mp hiy)
    apply band_reassembles buf width height tw th (iy * th) htw ?_ hlen
    have hminle : min th (height - iy * th) ≤ height - iy * th := Nat.min_le_right _ _
    omega
  rw [List.flatMap_congr hbands]
  have hclamp : ∀ iy ∈ List.range ((height + (th - 1)) / th),
      (buf.drop ((iy * th) * (width * 4))).take
          (min th (height - iy * th) * (width * 4))
      = (buf.drop (iy * (th * (width * 4)))).take (th * (width * 4)) := by
    intro iy hiy
    have hylt : iy * th < height := mul_lt_of_lt_ceilDiv hth (List.mem_range.mp hiy)
    have hoff : (iy * th) * (width * 4) = iy * (th * (width * 4)) := by ring
    rw [hoff]
    apply List.take_eq_take.mpr
    have hdlen : (buf.drop (iy * (th * (width * 4)))).length
        = (height - iy * th) * (width * 4) := by
      simp only [List.length_drop, hlen]
      rw [Nat.sub_mul]
      congr 1
      · ring
      · ring
    rw [hdlen, min_mul_right, Nat.min_assoc, Nat.min_self]
  rw [List.flatMap_congr hclamp]
  apply segments_cover
  rw [hlen]
  have hh : height ≤ ((height + (th - 1)) / th) * th := le_ceilDiv_mul height th hth
  have hmul : height * (width * 4) ≤ (((height + (th - 1)) / th) * th) * (width * 4) :=
    Nat.mul_le_mul_right _ hh
  have h1 : width * height * 4 = height * (width * 4) := by ring
  have h2 : (((height + (th - 1)) / th) * th) * (width * 4)
      = ((height + (th - 1)) / th) * (th * (width * 4)) := by ring
  omega

/-- The shape of the JSON response of the first `app.post('/render')`
handler in src/server.js (153-180). -/
structure RenderResponse where
  success : Bool
  tiles : List (List Nat)
  width : Nat
  height : Nat
  tileWidths : List Nat
  tileHeights : List Nat
  bytesPerPixel : Nat
  channelOrder : String
  pixelDensity : Nat
  deriving DecidableEq, Repr

/-- `app.post('/render')` in src/server.js (153-180): once
`RenderLatexToSvg` and `ConvertSvgToPng` have resolved with a pixel
buffer of dimensions `FinalWidth × FinalHeight`, the handler calls
`SplitIntoTiles` and responds `success: true` unconditionally — there
is no check against zero dimensions or an empty tile list.  If
`SplitIntoTiles` throws, the route's `catch` responds
`{success: false, error: Error.message}` — modelled by propagating the
`Except.error`. -/
def renderPostResponse (pngBuffer : List Nat) (finalWidth finalHeight density : Nat) :
    Except String RenderResponse :=
  (SplitIntoTiles pngBuffer finalWidth finalHeight).map fun s =>
    { success := true, tiles := s.tiles, width := finalWidth, height := finalHeight,
      tileWidths := s.tileWidths, tileHeights := s.tileHeights,
      bytesPerPixel := 4, channelOrder := "RGBA", pixelDensity := density }

deriving instance DecidableEq for Except

/-- C4: at W = 1500, H = 2000, T = 1024, `TileRawRgba` (part_005) emits
exactly 4 tiles with the claimed per-tile sequences
`tileWidths = [1024, 476, 1024, 476]` and
`tileHeights = [1024, 1024, 976, 976]`, and `svgToRgbaTiles` (part_002)
returns the same; server.js `SplitIntoTiles`, however, emits nothing at
this input — its parameter `Buffer` shadows Node's `Buffer` class, so
`Buffer.alloc` is `undefined` and the function throws `TypeError` on
its very first tile. -/
theorem claim_c4_tiler_edge_sizes :
    ((TileRawRgba (List.replicate (1500 * 2000 * 4) 0) 1500 2000 1024 1024).tiles.length = 4
     ∧ (TileRawRgba (List.replicate (1500 * 2000 * 4) 0) 1500 2000 1024 1024).tileWidths
        = [1024, 476, 1024, 476]
     ∧ (TileRawRgba (List.replicate (1500 * 2000 * 4) 0) 1500 2000 1024 1024).tileHeights
        = [1024, 1024, 976, 976])
    ∧ ((svgToRgbaTiles (List.replicate (1500 * 2000 * 4) 0) 1500 2000 2).map
        (fun r => (r.tiles.length, r.tileWidths, r.tileHeights))
       = Except.ok (4, [1024, 476, 1024, 476], [1024, 1024, 976, 976]))
    ∧ SplitIntoTiles (List.replicate (1500 * 2000 * 4) 0) 1500 2000
        = Except.error "Buffer.alloc is not a function" := by
  refine ⟨⟨?_, ?_, ?_⟩, ?_, ?_⟩ <;> decide

/-- C1 failing input for `SplitBufferToTiles` (part_003): a 1025 × 1
buffer (4100 bytes) with T = 1024.  The first tile's slice runs to
`((0+1)*1025 + (0+1024))*4 = 8196`, clamped to the 4100-byte buffer, so
the emitted tile holds 4100 bytes instead of the 1024 * 1 * 4 = 4096
bytes of its declared sub-rectangle, and the concatenation of the
emitted tiles has 4104 bytes — reassembly cannot reproduce the 4100-byte
original. -/
theorem claim_c1_splitBufferToTiles_bug :
    (SplitBufferToTiles (List.replicate 4100 0) 1025 1 1024 1024).tileWidths = [1024, 1]
    ∧ (SplitBufferToTiles (List.replicate 4100 0) 1025 1 1024 1024).tileHeights = [1]
    ∧ (SplitBufferToTiles (List.replicate 4100 0) 1025 1 1024 1024).tiles.map List.length
        = [4100, 4]
    ∧ (SplitBufferToTiles (List.replicate 4100 0) 1025 1 1024 1024).tiles.headI
        ≠ copyRows (List.replicate 4100 0) 1025 0 0 1024 1
    ∧ (copyRows (List.replicate 4100 0) 1025 0 0 1024 1).length = 1024 * 1 * 4
    ∧ (List.replicate 4100 (0 : Nat)).length = 4100 := by
  have hr1 : List.range 1 = [0] := by decide
  have hr2 : List.range 2 = [0, 1] := by decide
  have heval : SplitBufferToTiles (List.replicate 4100 0) 1025 1 1024 1024 =
      ⟨[jsSlice (List.replicate 4100 0) 0 8196, jsSlice (List.replicate 4100 0) 4096 8200],
       [1024, 1], [1]⟩ := by
    simp only [SplitBufferToTiles]
    norm_num [hr1, hr2, List.foldl_cons, List.foldl_nil]
  have hlen1 : (jsSlice (List.replicate 4100 (0 : Nat)) 0 8196).length = 4100 := by
    simp only [jsSlice, List.length_take, List.length_drop, List.length_replicate]
    omega
  have hlen2 : (jsSlice (List.replicate 4100 (0 : Nat)) 4096 8200).length = 4 := by
    simp only [jsSlice, List.length_take, List.length_drop, List.length_replicate]
    omega
  have hlenc : (copyRows (List.replicate 4100 (0 : Nat)) 1025 0 0 1024 1).length = 4096 := by
    simp only [copyRows, hr1, List.flatMap_cons, List.flatMap_nil, List.append_nil,
      List.length_take, List.length_drop, List.length_replicate]
    omega
  refine ⟨by rw [heval], by rw [heval], ?_, ?_, ?_, by rw [List.length_replicate]⟩
  · rw [heval]
    simp only [List.map_cons, List.map_nil, hlen1, hlen2]
  · rw [heval]
    intro h
    have hle := congrArg List.length h
    simp only [List.headI] at hle
    rw [hlen1, hlenc] at hle
    exact absurd hle (by decide)
  · rw [hlenc]

/-- C8 failing input: a rasterized image of width 0.  With zero tile
columns `SplitIntoTiles` never reaches its (otherwise throwing) tile
loop body: it returns normally with zero tiles, and the server.js
`/render` handler responds `success: true` with an empty tile list —
the degenerate outcome is not reported as an error there.  part_002's
`svgToRgbaTiles`, by contrast, throws `"invalid raster dimensions"`
before tiling. -/
theorem claim_c8_zero_dimension_response :
    renderPostResponse [] 0 7 2
      = Except.ok (RenderResponse.mk true [] 0 7 [] [7] 4 "RGBA" 2)
    ∧ SplitIntoTiles [] 0 7 = Except.ok (TileSplit.mk [] [] [7])
    ∧ svgToRgbaTiles [] 0 7 2 = .error "invalid raster dimensions" := by
  refine ⟨?_, ?_, ?_⟩ <;> decide

/-!
## Render pipelines

The external rasterization stages (MathJax conversion plus sharp
rasterization) are abstracted as oracles: an attempt- or density-indexed
function returning `Except`.  A JavaScript `async` function that throws
or rejects is an `Except.error`.  Each model additionally returns a
trace (the attempts made, with the density used where relevant), so that
"performs exactly N attempts" is a provable statement rather than an
artifact of the embedding.
-/

/-- `ConvertSvgToPng(SvgString, Width, Height, Attempt)` from
src/server.js 72-105, with the sharp stage abstracted as a
density-indexed oracle.  `const Density = 2` is declared INSIDE the
`try` block; the external call enters at `Attempt = 1`, so on a failed
attempt the `catch` takes its `Attempt < 3` branch, whose first
computation `const LowerDensity = Math.max(1, Density - (Attempt - 1)
* 0.5)` (line 100) references `Density` outside its block scope and
throws `ReferenceError: Density is not defined`; that throw replaces
the caught error and rejects the whole call — the recursive retry on
the next line is never reached.  So the function performs exactly one
rasterization, at density 2, the caller-requested pixel density not
being a parameter at all.  Returns the outcome together with the list
of densities actually attempted. -/
def ConvertSvgToPng {A : Type} (sharp : Nat → Except String A) :
    Except String A × List Nat :=
  let density := 2
  match sharp density with
  | .ok v => (.ok v, [density])
  | .error _ => (.error "Density is not defined", [density])

namespace ServerJs

/-- `const RenderAttempts = 3` (src/server.js 200). -/
def RenderAttempts : Nat := 3

/-- The loop body of `RenderWithRetries` (src/server.js 312-327) over
the list of remaining attempt numbers: try `RenderLatex`; on success
return the result; on failure remember `LastError` and continue; when
the attempts are exhausted, `throw LastError` — modelled as
`Except.error` carrying the last error (`none` being the `undefined`
initial value of `LastError`, unreachable when at least one attempt
runs). -/
def RenderWithRetriesLoop {E A : Type} (render : Nat → Except E A) :
    List Nat → Option E → Except (Option E) A × List Nat
  | [], lastError => (.error lastError, [])
  | attempt :: rest, _ =>
    match render attempt with
    | .ok v => (.ok v, [attempt])
    | .error e =>
      let r := RenderWithRetriesLoop render rest (some e)
      (r.1, attempt :: r.2)

/-- `RenderWithRetries(Latex, FontSize, PixelDensity)`: attempts
1 .. RenderAttempts.  Also returns the list of attempts performed. -/
def RenderWithRetries {E A : Type} (render : Nat → Except E A) :
    Except (Option E) A × List Nat :=
  RenderWithRetriesLoop render ((List.range RenderAttempts).map (· + 1)) none

end ServerJs

namespace Part005

/-- Constants of src/unnamed/part_005 6-11. -/
def PixelDensityPrimary : Nat := 2

def PixelDensityFallback : Nat := 1

def RenderAttempts : Nat := 3

/-- The discriminated result object of `RenderLatex`: either
`{success: true, …, pixelDensity: density}` or
`{success: false, error}`. -/
inductive Outcome (R : Type) where
  | success (result : R) (pixelDensity : Nat)
  | failure (error : String)
  deriving DecidableEq, Repr

/-- `e && e.message ? e.message : "UnknownError"` — the empty string is
the falsy message. -/
def messageOr (e : String) : String := if e = "" then "UnknownError" else e

/-- `lastError || "RenderFailed"`. -/
def jsOrElse : Option String → String → String
  | none, d => d
  | some s, d => if s = "" then d else s

/-- The attempt loop of `RenderLatex(latex, fontSize)` (src/unnamed/
part_005 79-103), with the TexToSvg → SvgToRawRgba → TileRawRgba body
abstracted as an oracle `step attempt density`.  The density is
hard-coded: `attempt === 1 ? PixelDensityPrimary : PixelDensityFallback`
(2 on the first attempt, 1 on every retry); a caller-requested pixel
density does not exist in this signature.  Returns the outcome together
with the `(attempt, density)` pairs tried. -/
def RenderLatexLoop {R : Type} (step : Nat → Nat → Except String R) :
    List Nat → Option String → Outcome R × List (Nat × Nat)
  | [], lastError => (.failure (jsOrElse lastError "RenderFailed"), [])
  | attempt :: rest, _ =>
    let density := if attempt = 1 then PixelDensityPrimary else PixelDensityFallback
    match step attempt density with
    | .ok res => (.success res density, [(attempt, density)])
    | .error e =>
      let r := RenderLatexLoop step rest (some (messageOr e))
      (r.1, (attempt, density) :: r.2)

/-- `RenderLatex(latex, fontSize)`: attempts 1 .. RenderAttempts, with
`lastError` initially `null`.  After the loop,
`{success: false, error: lastError || "RenderFailed"}`. -/
def RenderLatex {R : Type} (step : Nat → Nat → Except String R) :
    Outcome R × List (Nat × Nat) :=
  RenderLatexLoop step ((List.range RenderAttempts).map (· + 1)) none

end Part005

namespace Part002

/-- part_002 cache entries: `{value, ts: Date.now()}` (line 36). -/
structure Entry (R : Type) where
  value : R
  ts : Nat
  deriving DecidableEq, Repr

abbrev Map (R : Type) := List (String × Entry R)

/-- part_002 `LruCache.get` (27-33): no TTL check — a hit is moved to
the most-recently-used end (delete + re-set of the same entry object)
and its `.value` is returned. -/
def get {R : Type} (m : Map R) (k : String) : Option R × Map R :=
  match jsFind? m k with
  | none => (none, m)
  | some (_, v) => (some v.value, jsMapSet (jsDelete m k) k v)

/-- part_002 `LruCache.set` (34-38) at time `now`: delete if present,
re-insert at the most-recent end, evict from the oldest end while over
capacity. -/
def set {R : Type} (capacity now : Nat) (m : Map R) (k : String) (value : R) : Map R :=
  let m1 := if jsHas m k then jsDelete m k else m
  evictWhile capacity (jsMapSet m1 k ⟨value, now⟩)

/-- A cache operation performed by the pipeline, for the effect trace. -/
inductive CacheOp where
  | getOp (key : String)
  | setOp (key : String)
  deriving DecidableEq, Repr

/-- The discriminated result of part_002 `renderLatex`. -/
inductive RenderOutcome (R : Type) where
  | success (cached : Bool) (result : R)
  | failure (error : String)
  deriving DecidableEq, Repr

/-- The attempt loop of part_002 `renderLatex` (86-102), the
convert/extract/rasterize/tile body abstracted as `step attempt`.  On
success the result is stored in the cache (`Cache.set(key, tilesResult)`,
line 95) before returning; on the final attempt's failure the error
object is returned from inside the catch (line 100).  The
`return {success:false, error:String(lastErr)}` after the loop
(line 103) is unreachable whenever at least one attempt runs. -/
def renderLatexLoop {R : Type} (capacity now : Nat) (step : Nat → Except String R)
    (key : String) (cache : Map R) :
    List Nat → RenderOutcome R × Map R × List CacheOp
  | [] => (.failure "unreachable: String(lastErr)", cache, [])
  | attempt :: rest =>
    match step attempt with
    | .ok tilesResult =>
      (.success false tilesResult, set capacity now cache key tilesResult,
        [CacheOp.setOp key])
    | .error e =>
      match rest with
      | [] => (.failure e, cache, [])
      | _ :: _ => renderLatexLoop capacity now step key cache rest

/-- part_002 `renderLatex(latex, fontSize, pixelDensity, retries)`
(81-104): the pipeline function itself consults the cache first
(`Cache.get(key)`, line 83) and, on a hit, returns the cached result;
on a miss it runs the retry loop, which populates the cache on success.
The cache state is threaded through and every cache operation is
recorded in the trace. -/
def renderLatex {R : Type} (capacity now : Nat) (step : Nat → Except String R)
    (key : String) (retries : Nat) (cache : Map R) :
    RenderOutcome R × Map R × List CacheOp :=
  match get cache key with
  | (some c, cache1) => (.success true c, cache1, [CacheOp.getOp key])
  | (none, cache1) =>
    let r := renderLatexLoop capacity now step key cache1 ((List.range retries).map (· + 1))
    (r.1, r.2.1, CacheOp.getOp key :: r.2.2)

end Part002

/-- server.js `RenderWithRetries` threaded with the `RenderCache` state:
the function body (src/server.js 312-327) contains no reference to
`RenderCache` — only the request handlers and `PrewarmCommon` touch it —
so the cache passes through unchanged and the cache-operation trace is
empty. -/
def ServerJs.RenderWithRetriesSt {E A R : Type} (render : Nat → Except E A)
    (cache : List (String × R)) :
    (Except (Option E) A × List Nat) × List (String × R) × List Part002.CacheOp :=
  (ServerJs.RenderWithRetries render, cache, [])

/-- C3 failing input: a rasterizer that fails at every density ≥ 2 and
succeeds at density 1 (the claim's scenario).  server.js
`ConvertSvgToPng` performs exactly one attempt, at density 2, and
rejects with the catch block's own `ReferenceError` (`Density` is
scoped to the `try`), so the density is never reduced, the retry is
dead code, the requested density is not even a parameter, and the
render fails where the claim says it would degrade to density 1 and
succeed.  part_005's `RenderLatex` does degrade (hard-coded 2 then 1)
and succeeds with `pixelDensity = 1` on the second attempt, but it too
has no caller-requested `pixelDensity = 4` to halve. -/
theorem claim_c3_density_never_reduced :
    ConvertSvgToPng (fun d => if d ≤ 1 then Except.ok (0 : Nat)
        else Except.error "resource exhausted")
      = (Except.error "Density is not defined", [2])
    ∧ Part005.RenderLatex
        (fun _ d => if d ≤ 1 then Except.ok (0 : Nat) else Except.error "fail")
      = (Part005.Outcome.success 0 1, [(1, 2), (2, 1)]) := by
  refine ⟨?_, ?_⟩
  · simp [ConvertSvgToPng]
  · simp [Part005.RenderLatex, Part005.RenderLatexLoop, Part005.RenderAttempts,
      Part005.PixelDensityPrimary, Part005.PixelDensityFallback, Part005.messageOr,
      List.range_succ]

/-- C7: with an always-failing rasterizer, server.js
`RenderWithRetries` performs exactly `RenderAttempts = 3` attempts and
then yields a terminal failure carrying the last (third) attempt's
error, and part_005 `RenderLatex` performs exactly its 3 attempts
(densities 2, 1, 1) and returns the discriminated failure carrying the
last attempt's message; neither ever yields a success (and hence never
a partially-tiled result), and both are total functions (no hang). -/
theorem claim_c7_exhaustion_after_all_attempts {E A R : Type}
    (render : Nat → Except E A) (f : Nat → E) (hr : ∀ n, render n = .error (f n))
    (step : Nat → Nat → Except String R) (g : Nat → String)
    (hs : ∀ a d, step a d = .error (g a)) (hg : ∀ a, g a ≠ "") :
    ServerJs.RenderWithRetries render = (.error (some (f 3)), [1, 2, 3])
    ∧ Part005.RenderLatex step
        = (.failure (g 3), [(1, 2), (2, 1), (3, 1)]) := by
  constructor
  · simp [ServerJs.RenderWithRetries, ServerJs.RenderWithRetriesLoop,
      ServerJs.RenderAttempts, hr, List.range_succ]
  · simp [Part005.RenderLatex, Part005.RenderLatexLoop, Part005.RenderAttempts,
      Part005.PixelDensityPrimary, Part005.PixelDensityFallback,
      Part005.messageOr, Part005.jsOrElse, hs, hg, List.range_succ]

/-- C7 witness: a concrete always-failing rasterizer. -/
theorem claim_c7_witness :
    ServerJs.RenderWithRetries (fun n => (Except.error n : Except Nat Nat))
        = (.error (some 3), [1, 2, 3])
    ∧ Part005.RenderLatex (fun _ _ => (Except.error "boom" : Except String Nat))
        = (.failure "boom", [(1, 2), (2, 1), (3, 1)]) :=
  claim_c7_exhaustion_after_all_attempts
    (fun n => Except.error n) (fun n => n) (fun _ => rfl)
    (fun _ _ => Except.error "boom") (fun _ => "boom") (fun _ _ => rfl)
    (fun _ => (by decide : ("boom" : String) ≠ ""))

/-- C9 (amended): server.js `RenderWithRetries` performs no cache
operation whatsoever — the cache state passes through every invocation
unchanged, and only the request handlers consult and populate it.  In
part_002, however, the rasterize-with-retry function `renderLatex`
itself touches the cache: every invocation begins with a cache get of
the render key, and a miss followed by a successful first attempt also
performs the cache set that stores the result. -/
theorem claim_c9_pipeline_cache_isolation :
    (∀ (E A S : Type) (render : Nat → Except E A) (cache0 : List (String × S)),
       (ServerJs.RenderWithRetriesSt render cache0).2.1 = cache0
       ∧ (ServerJs.RenderWithRetriesSt render cache0).2.2 = [])
    ∧ (∀ (R : Type) (capacity now : Nat) (step : Nat → Except String R)
         (key : String) (retries : Nat) (cache : Part002.Map R),
        ∃ rest, (Part002.renderLatex capacity now step key retries cache).2.2
          = Part002.CacheOp.getOp key :: rest)
    ∧ (∀ (R : Type) (capacity now : Nat) (step : Nat → Except String R)
         (key : String) (retries : Nat) (cache : Part002.Map R) (res : R),
        step 1 = .ok res → jsFind? cache key = none → 1 ≤ retries →
        (Part002.renderLatex capacity now step key retries cache).2.2
            = [Part002.CacheOp.getOp key, Part002.CacheOp.setOp key]
          ∧ (Part002.renderLatex capacity now step key retries cache).2.1
            = Part002.set capacity now cache key res) := by
  refine ⟨fun E A S render cache0 => ⟨rfl, rfl⟩, ?_, ?_⟩
  · intro R capacity now step key retries cache
    cases hf : jsFind? cache key with
    | none =>
      exact ⟨(Part002.renderLatexLoop capacity now step key cache
          ((List.range retries).map (· + 1))).2.2,
        by simp [Part002.renderLatex, Part002.get, hf]⟩
    | some p =>
      exact ⟨[], by simp [Part002.renderLatex, Part002.get, hf]⟩
  · intro R capacity now step key retries cache res hok hmiss hr
    obtain ⟨n, rfl⟩ : ∃ n, retries = n + 1 := ⟨retries - 1, by omega⟩
    have htl : ∃ tl, (List.range (n + 1)).map (· + 1) = 1 :: tl := by
      rw [List.range_succ_eq_map, List.map_cons]
      exact ⟨_, rfl⟩
    obtain ⟨tl, htl⟩ := htl
    constructor
    · simp [Part002.renderLatex, Part002.get, hmiss, htl, Part002.renderLatexLoop, hok]
    · simp [Part002.renderLatex, Part002.get, hmiss, htl, Part002.renderLatexLoop, hok]

/-- C9 counterexample: on an empty cache with a rasterizer that succeeds
immediately, part_002's `renderLatex` itself performs a cache get and a
cache set, and its resulting cache differs from the input cache — the
claim that the pipeline performs no cache get, set, or delete is false
for this function. -/
theorem claim_c9_counterexample :
    (Part002.renderLatex 800 0 (fun _ => Except.ok (7 : Nat)) "k" 3 []).2.2
      = [Part002.CacheOp.getOp "k", Part002.CacheOp.setOp "k"]
    ∧ (Part002.renderLatex 800 0 (fun _ => Except.ok (7 : Nat)) "k" 3 []).2.1
      = [("k", Part002.Entry.mk 7 0)]
    ∧ (Part002.renderLatex 800 0 (fun _ => Except.ok (7 : Nat)) "k" 3 []).2.2 ≠ [] := by
  refine ⟨?_, ?_, ?_⟩ <;> decide

/-- C9 witness: the amended statement evaluated at concrete inputs. -/
theorem claim_c9_witness :
    ((ServerJs.RenderWithRetriesSt (fun n => (Except.error n : Except Nat Nat))
        [("a", (5 : Nat))]).2.1 = [("a", 5)]
     ∧ (ServerJs.RenderWithRetriesSt (fun n => (Except.error n : Except Nat Nat))
        [("a", (5 : Nat))]).2.2 = [])
    ∧ ((Part002.renderLatex 800 0 (fun _ => Except.ok (9 : Nat)) "key" 2 []).2.2
        = [Part002.CacheOp.getOp "key", Part002.CacheOp.setOp "key"]
       ∧ (Part002.renderLatex 800 0 (fun _ => Except.ok (9 : Nat)) "key" 2 []).2.1
        = Part002.set 800 0 [] "key" 9) :=
  ⟨claim_c9_pipeline_cache_isolation.1 Nat Nat Nat (fun n => Except.error n) [("a", 5)],
   claim_c9_pipeline_cache_isolation.2.2 Nat 800 0 (fun _ => Except.ok 9) "key" 2 [] 9
     rfl rfl (by decide)⟩

/-- C6 witness: with `insertedAt = 0`, `ttl = 1`, a get at time 2
returns absent, and a further get at time 3 is still absent. -/
theorem claim_c6_witness :
    ((Part000.Entry.mk (37 : Nat) 0 1).ts + (Part000.Entry.mk (37 : Nat) 0 1).ttl < 2)
    ∧ (Part000.get 2 [((0 : Nat), Part000.Entry.mk (37 : Nat) 0 1)] 0).1 = none
    ∧ (Part000.get 3 (Part000.get 2 [((0 : Nat), Part000.Entry.mk (37 : Nat) 0 1)] 0).2 0).1
        = none :=
  ⟨by decide,
    ((claim_c6_ttl_lazy_expiry [((0 : Nat), Part000.Entry.mk (37 : Nat) 0 1)] 0
        (Part000.Entry.mk 37 0 1) (by decide) (by decide) 2).1 (by decide)).1,
    ((claim_c6_ttl_lazy_expiry [((0 : Nat), Part000.Entry.mk (37 : Nat) 0 1)] 0
        (Part000.Entry.mk 37 0 1) (by decide) (by decide) 2).1 (by decide)).2.2.2 3⟩

/-- C5 witness: capacity 2 with keys 1, 2, 3 over the natural-number
key space, evaluated concretely. -/
theorem claim_c5_witness :
    ([1, 2] ++ [3] : List Nat).Nodup ∧ (0 : Nat) ≤ 0 + 9 ∧
    ((ServerJs.SetAll 2 ([1, 2] ++ [3]) (5 : Nat)).map Prod.fst = [2] ++ [3]
     ∧ ((ServerJs.Set 2 (ServerJs.Get (ServerJs.SetAll 2 [1, 2] (5 : Nat)) 1).2
          3 5).map Prod.fst) = [1, 3]
     ∧ (Part000.setAll 2 0 9 ([1, 2] ++ [3]) (5 : Nat)).map Prod.fst = [2] ++ [3]
     ∧ ((Part000.set 2 0
          (Part000.get 0 (Part000.setAll 2 0 9 [1, 2] (5 : Nat)) 1).2
          3 5 9).map Prod.fst) = [1, 3]) := by
  refine ⟨by decide, by decide, ?_⟩
  have h := claim_c5_lru_eviction_order 1 2 3 ([] : List Nat) (5 : Nat) 0 0 9
    (by decide) (by decide)
  simpa using h
